import Mathlib

/-!
Verification development for the label_reconciliations repository.

The Python sources embedded here (shallowly) are:
  src/label_reconciliations/fields/polygon_field.py  (PolygonField.reconcile)
  src/label_reconciliations/row.py                   (Row.add, suffix counters)
  src/label_reconciliations/core.py                  (run, zip_outputs, _validate_args)
  src/label_reconciliations/cli.py                   (parse_args threshold validation)
  src/reconciler/reconcile_util.py                   (run, zip_files)

Modules not present in the source tree (table.py, box_field.py, point_field.py,
utils.py, flag.py, base_field.py) are modelled from the specification and the
unit tests; each such definition carries a doc comment starting with
"Modelled from the spec:".

Machine integers are modelled with Int/Nat; Python exceptions that escape a
function are modelled with Except (the error value standing for the raised
exception); file side effects are modelled as an explicit event list.
-/

namespace LabelRec

/-- Modelled from the spec: the Flag enum (flag.py is not in the source tree).
The spec lists the canonical outcome states. -/
inductive Flag where
  | OK
  | EMPTY
  | ALL_BLANK
  | NO_MATCH
  | UNANIMOUS
  | MAJORITY
  | ONE_TRANSCRIPT
  | PLACEHOLDERS
  deriving DecidableEq, Repr

/-- Modelled from the spec: utils.P (utils.py is not in the source tree) is a
pluralizing helper; the box test shows P applied to "is" and "record" yields
"are" and "records" for a count of 3, and English usage fixes the count-1 case. -/
def P (word : String) (n : Nat) : String :=
  if n = 1 then word
  else if word = ("is") then ("are")
  else word ++ ("s")

/-- A 2-d point as used by the polygon field (utils.Point; coordinates are
kept as integers here since polygon reconciliation never computes on them). -/
structure Point where
  x : Int
  y : Int
  deriving DecidableEq, Repr

/-- The polygon field record from polygon_field.py.  Metadata attributes
(field_name, name_group, suffix) come from BaseField. -/
structure PolygonField where
  field_name : String := ""
  name_group : String := ""
  suffix : Nat := 1
  note : String := ""
  flag : Flag := Flag.OK
  points : List Point := []
  deriving DecidableEq, Repr

/-- The note string built by PolygonField.reconcile. -/
def polygonNote (useLen rowCount : Nat) : String :=
  ("There ") ++ P ("is") useLen ++ (" ") ++ toString useLen ++ (" of ")
    ++ toString rowCount ++ (" polygon ") ++ P ("record") rowCount

/-- Modelled from the spec: BaseField.like (base_field.py is not in the source
tree) builds the new reconciled field instance, carrying over the row and
field metadata of the group. -/
def likePolygon (use : List PolygonField) : PolygonField :=
  match use with
  | [] => {}
  | f :: _ => { field_name := f.field_name, name_group := f.name_group, suffix := f.suffix }

/-- PolygonField.reconcile from polygon_field.py, line for line:
use is the list of non-null entries; an empty use returns None; otherwise the
code evaluates group[0].points.  When group[0] is a None placeholder that
attribute access raises AttributeError, modelled as Except.error (). -/
def PolygonField.reconcile (group : List (Option PolygonField)) (row_count : Nat) :
    Except Unit (Option PolygonField) :=
  let use := group.filterMap id
  if use.isEmpty then Except.ok none
  else
    match group with
    | [] => Except.error ()
    | none :: _ => Except.error ()
    | some g0 :: _ =>
        Except.ok (some { likePolygon use with
                            note := polygonNote use.length row_count
                            flag := Flag.OK
                            points := g0.points })

/-- Modelled from the spec: BoxField (box_field.py is not in the source tree);
the spec gives corners left/top/right/bottom and the reconciliation policy
"per-coordinate arithmetic mean across the group, rounded to nearest integer". -/
structure BoxField where
  field_name : String := ""
  name_group : String := ""
  suffix : Nat := 1
  note : String := ""
  flag : Flag := Flag.OK
  left : Int := 0
  top : Int := 0
  right : Int := 0
  bottom : Int := 0
  deriving DecidableEq, Repr

/-- Modelled from the spec: PointField (point_field.py is not in the source
tree); the spec gives coordinates x/y with the same mean-and-round policy. -/
structure PointField where
  field_name : String := ""
  name_group : String := ""
  suffix : Nat := 1
  note : String := ""
  flag : Flag := Flag.OK
  x : Int := 0
  y : Int := 0
  deriving DecidableEq, Repr

/-- Round of the arithmetic mean of a list of integers, the coordinate policy
the spec states for the box and point fields. -/
def roundMean (xs : List Int) : Int :=
  round ((xs.sum : ℚ) / (xs.length : ℚ))

/-- Modelled from the test: the note of the reconciled box
("There are 3 box records" in test_box_field.py). -/
def boxNote (useLen : Nat) : String :=
  ("There ") ++ P ("is") useLen ++ (" ") ++ toString useLen ++ (" box ")
    ++ P ("record") useLen

/-- Modelled from the test: the note of the reconciled point, same shape as
the box note. -/
def pointNote (useLen : Nat) : String :=
  ("There ") ++ P ("is") useLen ++ (" ") ++ toString useLen ++ (" point ")
    ++ P ("record") useLen

/-- Modelled from the spec: BoxField.reconcile — per-coordinate mean of the
non-null entries, rounded, flag OK; None when every entry is None. -/
def BoxField.reconcile (group : List (Option BoxField)) (_row_count : Nat) :
    Option BoxField :=
  let use := group.filterMap id
  match use with
  | [] => none
  | f :: _ =>
      some { field_name := f.field_name, name_group := f.name_group, suffix := f.suffix,
             note := boxNote use.length, flag := Flag.OK,
             left := roundMean (use.map (fun b => b.left)),
             top := roundMean (use.map (fun b => b.top)),
             right := roundMean (use.map (fun b => b.right)),
             bottom := roundMean (use.map (fun b => b.bottom)) }

/-- Modelled from the spec: PointField.reconcile — mean-and-round over x and y. -/
def PointField.reconcile (group : List (Option PointField)) (_row_count : Nat) :
    Option PointField :=
  let use := group.filterMap id
  match use with
  | [] => none
  | f :: _ =>
      some { field_name := f.field_name, name_group := f.name_group, suffix := f.suffix,
             note := pointNote use.length, flag := Flag.OK,
             x := roundMean (use.map (fun p => p.x)),
             y := roundMean (use.map (fun p => p.y)) }

/-! ## Row assembly (row.py) -/

/-- A field as seen by Row.add in row.py.  isTask models membership in the
TaskField union (the Python code branches on isinstance(field, TaskField)). -/
structure RField where
  field_name : String
  name_group : String
  suffix : Nat
  isTask : Bool
  deriving DecidableEq, Repr

/-- Python dict assignment d[k] = v: replace in place when the key is present
(keeping its position), append otherwise. -/
def dictInsert {α : Type} : List (String × α) → String → α → List (String × α)
  | [], k, v => [(k, v)]
  | (k1, v1) :: rest, k, v =>
      if k1 = k then (k1, v) :: rest else (k1, v1) :: dictInsert rest k v

/-- The Row of row.py: an insertion-ordered mapping from field_name to field,
plus the defaultdict(int) of per-name_group suffix counters. -/
structure Row where
  fields : List (String × RField) := []
  suffixes : List (String × Nat) := []
  deriving DecidableEq, Repr

/-- Current counter value for a name group (defaultdict(int): missing is 0). -/
def suffixCount (r : Row) (g : String) : Nat :=
  (r.suffixes.lookup g).getD 0

/-- The suffix stamping performed by Row.add before insertion: a task field
gets the incremented per-name_group counter, other fields are unchanged. -/
def stampField (r : Row) (f : RField) : RField :=
  if f.isTask then { f with suffix := suffixCount r f.name_group + 1 } else f

/-- Row.add from row.py for a single field. -/
def Row.add (r : Row) (f : RField) : Row :=
  if f.isTask then
    { fields := dictInsert r.fields f.field_name (stampField r f),
      suffixes := dictInsert r.suffixes f.name_group (suffixCount r f.name_group + 1) }
  else
    { fields := dictInsert r.fields f.field_name f, suffixes := r.suffixes }

/-- Row.add applied to a list of fields, in order. -/
def Row.addAll (r : Row) (fs : List RField) : Row := fs.foldl Row.add r

/-- Build a Row from scratch by a sequence of add calls. -/
def buildRow (fs : List RField) : Row := Row.addAll {} fs

/-- Number of task fields with a given name group in a list of fields. -/
def countTask (g : String) (fs : List RField) : Nat :=
  (fs.filter (fun f => f.isTask && f.name_group == g)).length

/-- The (name_group, suffix) pairs of the task fields among the values of an
association list of fields. -/
def fieldPairs (l : List (String × RField)) : List (String × Nat) :=
  ((l.map Prod.snd).filter (fun f => f.isTask)).map
    (fun f => (f.name_group, f.suffix))

/-- The (name_group, suffix) pairs of the task fields present in a Row. -/
def taskPairs (r : Row) : List (String × Nat) :=
  fieldPairs r.fields

/-- The Row invariant: every task field present carries a positive suffix
bounded by its name group counter, and the (name_group, suffix) pairs of the
task fields present are pairwise distinct. -/
def RowInv (r : Row) : Prop :=
  (∀ f ∈ r.fields.map Prod.snd, f.isTask = true →
      1 ≤ f.suffix ∧ f.suffix ≤ suffixCount r f.name_group)
    ∧ (fieldPairs r.fields).Nodup

/-! ## Table grouping and the run pipelines (spec-modelled table, core.py,
reconcile_util.py) -/

/-- One unreconciled table row: its group key and its polygon columns
(column name to field).  The polygon variant is the one field type whose
source is in the tree, so it is the cell type of the concrete table model. -/
structure TRow where
  key : String
  cols : List (String × PolygonField)
  deriving DecidableEq, Repr

/-- Helper for firstSeen: keys already seen are skipped, new keys are kept
and recorded. -/
def firstSeenAux (seen : List String) : List String → List String
  | [] => []
  | k :: rest =>
      if k ∈ seen then firstSeenAux seen rest
      else k :: firstSeenAux (k :: seen) rest

/-- First-seen order of the distinct elements of a list (Python grouping by
insertion order of keys). -/
def firstSeen (l : List String) : List String := firstSeenAux [] l

/-- Column names appearing in a group, in first-seen order. -/
def groupColNames (u : List TRow) : List String :=
  firstSeen ((u.map (fun r => r.cols.map Prod.fst)).flatten)

/-- Modelled from the spec: for each column of the group, collect the ordered
list of that field across rows (None where a row lacks it), invoke the column
reconciler, and drop columns whose reconciliation yields None.  An error from
the reconciler (an escaping Python exception) aborts the whole table. -/
def reconcileColsG (colRec : List (Option PolygonField) → Nat → Except Unit (Option PolygonField))
    (u : List TRow) : List String → Except Unit (List (String × PolygonField))
  | [] => Except.ok []
  | c :: cs =>
      match colRec (u.map (fun r => r.cols.lookup c)) u.length with
      | Except.error e => Except.error e
      | Except.ok none => reconcileColsG colRec u cs
      | Except.ok (some f) =>
          match reconcileColsG colRec u cs with
          | Except.error e => Except.error e
          | Except.ok rest => Except.ok ((c, f) :: rest)

/-- A reconciled table: one entry per surviving group key, in order. -/
abbrev RecTable : Type := List (String × List (String × PolygonField))

/-- Modelled from the spec: walk the group keys in first-seen order; a group
whose rows all fail the usable filter is skipped; otherwise its columns are
reconciled and one reconciled row is emitted. -/
def reconcileKeysG (colRec : List (Option PolygonField) → Nat → Except Unit (Option PolygonField))
    (usable : TRow → Bool) (rows : List TRow) : List String → Except Unit RecTable
  | [] => Except.ok []
  | k :: ks =>
      let u := (rows.filter (fun r => r.key == k)).filter usable
      if u.isEmpty then reconcileKeysG colRec usable rows ks
      else
        match reconcileColsG colRec u (groupColNames u) with
        | Except.error e => Except.error e
        | Except.ok cells =>
            match reconcileKeysG colRec usable rows ks with
            | Except.error e => Except.error e
            | Except.ok rest => Except.ok ((k, cells) :: rest)

/-- Modelled from the spec: Table.reconcile (table.py is not in the source
tree), generic in the per-column reconciler. -/
def tableReconcileG (colRec : List (Option PolygonField) → Nat → Except Unit (Option PolygonField))
    (usable : TRow → Bool) (rows : List TRow) : Except Unit RecTable :=
  reconcileKeysG colRec usable rows (firstSeen (rows.map (fun r => r.key)))

/-- Table.reconcile instantiated with the polygon reconciler from the tree. -/
def tableReconcile (usable : TRow → Bool) (rows : List TRow) : Except Unit RecTable :=
  tableReconcileG PolygonField.reconcile usable rows

/-- The args namespace attributes that the two run pipelines consult. -/
structure RunArgs where
  workflow_id : String := ""
  unreconciled : Option String := none
  reconciled : Option String := none
  summary : Option String := none
  zip : Option String := none
  zip_keep : Option String := none
  force_reconcile : Bool := false
  deriving DecidableEq, Repr

/-- Observable file-system effects of one run, in order.  createdZip is the
creation of the archive file itself (zipfile.ZipFile(path, mode="w")). -/
inductive Ev where
  | readInput
  | wroteUnreconciled (path : String)
  | wroteReconciled (path : String)
  | wroteSummary (path : String)
  | createdZip (path : String)
  | zipAdd (zipPath : String) (path : String)
  | removed (path : String)
  deriving DecidableEq, Repr

/-- The archive target: args.zip or args.zip_keep (both run functions). -/
def zipTarget (a : RunArgs) : Option String :=
  match a.zip with
  | some z => some z
  | none => a.zip_keep

/-- The output paths that were set; within one successful run each such file
has been written, so the os.path.exists guards in core.zip_outputs hold. -/
def zipMembers (a : RunArgs) : List String :=
  [a.unreconciled, a.reconciled, a.summary].filterMap id

/-- zip_outputs from core.py: with no members the function returns before
opening the archive (no file created); otherwise it creates the archive, adds
each member, then removes the originals unless keep_originals
(bool(args.zip_keep)) is set. -/
def coreZipEvents (a : RunArgs) : List Ev :=
  match zipTarget a with
  | none => []
  | some z =>
      if zipMembers a = [] then []
      else
        Ev.createdZip z :: (zipMembers a).map (Ev.zipAdd z)
          ++ (if a.zip_keep.isNone then (zipMembers a).map Ev.removed else [])

/-- zip_files from reconcile_util.py: it opens ZipFile(zip_file, "w")
unconditionally (creating the archive even with zero members), adds each
member, then always removes the originals (the OSError of a missing file is
swallowed), ignoring zip_keep. -/
def utilZipEvents (a : RunArgs) : List Ev :=
  match zipTarget a with
  | none => []
  | some z =>
      Ev.createdZip z :: (zipMembers a).map (Ev.zipAdd z)
        ++ (zipMembers a).map Ev.removed

/-- The result dict {"unreconciled": ..., "reconciled": ...} of a run. -/
abbrev RunResult : Type := List TRow × Option RecTable

/-- One fallible write step: the oracle io says whether the write raises.
A write that raises produces no complete output file at the granularity of
this model; a write that succeeds emits its event. -/
def tryWrite (io : Ev → Bool) : Option Ev → Except String (List Ev)
  | none => Except.ok []
  | some e => if io e then Except.ok [e] else Except.error ("write failed")

/-- run from core.py under an I/O environment io deciding which write steps
raise: read, fail fatally on an empty table (error_exit with a message naming
the workflow id, modelled as Except.error), write the unreconciled CSV when
requested, reconcile when reconciled or summary output is requested or the
internal force flag is set, write the reconciled CSV, write the summary, zip.
An exception from any step propagates, leaving behind exactly the outputs of
the steps already completed.  The zip stage is modelled atomically. -/
def coreRunEnv (io : Ev → Bool) (usable : TRow → Bool) (a : RunArgs) (tbl : List TRow) :
    List Ev × Except String RunResult :=
  if tbl.isEmpty then
    ([Ev.readInput], Except.error (("Workflow ") ++ a.workflow_id ++ (" has no data.")))
  else
    match tryWrite io (a.unreconciled.map Ev.wroteUnreconciled) with
    | Except.error e => ([Ev.readInput], Except.error e)
    | Except.ok evU =>
        let evs1 := Ev.readInput :: evU
        if a.reconciled.isSome || a.summary.isSome || a.force_reconcile then
          match tableReconcile usable tbl with
          | Except.error _ => (evs1, Except.error ("reconciliation failed"))
          | Except.ok recTbl =>
              match tryWrite io (a.reconciled.map Ev.wroteReconciled) with
              | Except.error e => (evs1, Except.error e)
              | Except.ok evR =>
                  match tryWrite io (a.summary.map Ev.wroteSummary) with
                  | Except.error e => (evs1 ++ evR, Except.error e)
                  | Except.ok evS =>
                      (evs1 ++ evR ++ evS ++ coreZipEvents a,
                       Except.ok (tbl, some recTbl))
        else
          (evs1 ++ coreZipEvents a, Except.ok (tbl, none))

/-- run from reconcile_util.py under the same I/O environment: identical
shape, but reconciliation happens only when reconciled or summary output is
requested (no force flag), and zipping uses zip_files. -/
def utilRunEnv (io : Ev → Bool) (usable : TRow → Bool) (a : RunArgs) (tbl : List TRow) :
    List Ev × Except String RunResult :=
  if tbl.isEmpty then
    ([Ev.readInput], Except.error (("Workflow ") ++ a.workflow_id ++ (" has no data.")))
  else
    match tryWrite io (a.unreconciled.map Ev.wroteUnreconciled) with
    | Except.error e => ([Ev.readInput], Except.error e)
    | Except.ok evU =>
        let evs1 := Ev.readInput :: evU
        if a.reconciled.isSome || a.summary.isSome then
          match tableReconcile usable tbl with
          | Except.error _ => (evs1, Except.error ("reconciliation failed"))
          | Except.ok recTbl =>
              match tryWrite io (a.reconciled.map Ev.wroteReconciled) with
              | Except.error e => (evs1, Except.error e)
              | Except.ok evR =>
                  match tryWrite io (a.summary.map Ev.wroteSummary) with
                  | Except.error e => (evs1 ++ evR, Except.error e)
                  | Except.ok evS =>
                      (evs1 ++ evR ++ evS ++ utilZipEvents a,
                       Except.ok (tbl, some recTbl))
        else
          (evs1 ++ utilZipEvents a, Except.ok (tbl, none))

/-- core.run under an environment where every write succeeds (the projection
in which the empty-input and validation behavior is stated). -/
def coreRun (usable : TRow → Bool) (a : RunArgs) (tbl : List TRow) :
    List Ev × Except String RunResult :=
  coreRunEnv (fun _ => true) usable a tbl

/-- reconcile_util.run under an environment where every write succeeds. -/
def utilRun (usable : TRow → Bool) (a : RunArgs) (tbl : List TRow) :
    List Ev × Except String RunResult :=
  utilRunEnv (fun _ => true) usable a tbl

/-- The threshold validation shared by cli.parse_args and core._validate_args:
each fuzzy threshold must lie in 0..100, checked before anything else runs. -/
def validateThresholds (fr fs : Int) : Except String Unit :=
  if fr < 0 ∨ fr > 100 then
    Except.error ("--fuzzy-ratio-threshold must be between 0 and 100.")
  else if fs < 0 ∨ fs > 100 then
    Except.error ("--fuzzy-set-threshold must be between 0 and 100.")
  else Except.ok ()

/-- cli.main: parse_args validates the thresholds (terminating via error_exit
on failure, before the input file is opened), then run executes. -/
def cliMain (fr fs : Int) (usable : TRow → Bool) (a : RunArgs) (tbl : List TRow) :
    List Ev × Except String RunResult :=
  match validateThresholds fr fs with
  | Except.error e => ([], Except.error e)
  | Except.ok _ => coreRun usable a tbl

deriving instance DecidableEq for Except

instance : DecidableEq RunResult :=
  @instDecidableEqProd _ _ inferInstance inferInstance

/-! ## Concrete instances used to check theorems on closed inputs -/

/-- A run configuration requesting unreconciled and reconciled CSV output. -/
def c7args : RunArgs :=
  { workflow_id := "w7", unreconciled := some ("unrec.csv"), reconciled := some ("rec.csv") }

/-- A row of subject s1 lacking the polygon column. -/
def c7rowA : TRow := { key := "s1", cols := [] }

/-- A row of subject s1 carrying the polygon column. -/
def c7rowB : TRow := { key := "s1", cols := [("poly", { points := [⟨0, 1⟩] })] }

/-- A run configuration requesting all three outputs. -/
def c7bargs : RunArgs :=
  { workflow_id := "w7b", unreconciled := some ("unrec.csv"),
    reconciled := some ("rec.csv"), summary := some ("sum.html") }

/-- An I/O environment in which exactly the summary write raises. -/
def c7io : Ev → Bool := fun ev =>
  match ev with
  | Ev.wroteSummary _ => false
  | _ => true

/-- A row whose polygon group reconciles without an error (non-null head). -/
def c7rowC : TRow := { key := "s1", cols := [("poly", { points := [⟨4, 4⟩] })] }

/-- A run configuration with the keep-originals archive option and the
internal force-reconcile flag set, accepted by both run pipelines. -/
def c10args : RunArgs :=
  { workflow_id := "w10", unreconciled := some ("u10.csv"), zip_keep := some ("a10.zip"),
    force_reconcile := true }

/-- A run configuration with an archive target but no output paths at all. -/
def c10bargs : RunArgs := { workflow_id := "w10b", zip := some ("b10.zip") }

/-- A single-subject row with no task columns. -/
def c10row : TRow := { key := "s", cols := [] }

/-- A row whose group has a usable row. -/
def c4rowGood : TRow := { key := "g", cols := [] }

/-- A row of a group whose rows are all filtered out. -/
def c4rowBad : TRow := { key := "bad", cols := [] }

/-- A usability filter rejecting the bad group. -/
def c4usable : TRow → Bool := fun r => r.key != "bad"

/-- First row of subject a with a polygon column. -/
def c6rowA : TRow := { key := "a", cols := [("poly", { points := [⟨1, 1⟩] })] }

/-- Row of subject b with a polygon column. -/
def c6rowB : TRow := { key := "b", cols := [("poly", { points := [⟨2, 2⟩] })] }

/-- Second row of subject a with a polygon column. -/
def c6rowA2 : TRow := { key := "a", cols := [("poly", { points := [⟨3, 3⟩] })] }

/-! ## Theorems -/

/-- Rounding the mean of a one-element list gives back the element. -/
theorem roundMean_single (x : Int) : roundMean [x] = x := by
  simp [roundMean]

/-- Under an environment where every write succeeds, a write step emits its
event and never raises. -/
theorem tryWrite_true (o : Option Ev) :
    tryWrite (fun _ => true) o = Except.ok o.toList := by
  cases o <;> simp [tryWrite]

/-- The events emitted by one write step are that step's own write. -/
theorem tryWrite_ok_mem {io : Ev → Bool} {o : Option Ev} {l : List Ev}
    (h : tryWrite io o = Except.ok l) : ∀ x ∈ l, o = some x := by
  cases o with
  | none =>
      cases h
      intro x hx
      exact absurd hx (List.not_mem_nil x)
  | some e =>
      simp only [tryWrite] at h
      cases hio : io e with
      | true =>
          rw [hio] at h
          simp only [if_true] at h
          cases h
          intro x hx
          rw [List.mem_singleton] at hx
          rw [hx]
      | false =>
          rw [hio] at h
          simp at h

/-- C1: PolygonField.reconcile passes through the point list of group[0]
verbatim with flag OK when group[0] is non-null, but when a None placeholder
precedes the first non-null entry the attribute access group[0].points raises
(Except.error), instead of returning the first non-null point list as the
claim and the spec state. -/
theorem polygon_reconcile_group_head_raises :
    PolygonField.reconcile
        [some { points := [⟨0, 0⟩, ⟨2, 4⟩] }, some { points := [⟨9, 9⟩] }] 2
      = Except.ok (some { note := polygonNote 2 2, flag := Flag.OK,
                          points := [⟨0, 0⟩, ⟨2, 4⟩] })
    ∧ PolygonField.reconcile [none, some { points := [⟨1, 2⟩, ⟨3, 4⟩] }] 2
      = Except.error () := by
  exact ⟨rfl, rfl⟩

/-- C2: for Box and Point groups with at least one non-null entry, every
reconciled coordinate is the rounded mean of that coordinate over the
non-null entries and the flag is OK; a one-entry group comes back with its
coordinates unchanged. -/
theorem box_point_reconcile_mean_round :
    (∀ (g : List (Option BoxField)) (rc : Nat), g.filterMap id ≠ [] →
      ∃ b, BoxField.reconcile g rc = some b
        ∧ b.left = roundMean ((g.filterMap id).map (fun f => f.left))
        ∧ b.top = roundMean ((g.filterMap id).map (fun f => f.top))
        ∧ b.right = roundMean ((g.filterMap id).map (fun f => f.right))
        ∧ b.bottom = roundMean ((g.filterMap id).map (fun f => f.bottom))
        ∧ b.flag = Flag.OK)
    ∧ (∀ (f : BoxField) (rc : Nat), ∃ b, BoxField.reconcile [some f] rc = some b
        ∧ b.left = f.left ∧ b.top = f.top ∧ b.right = f.right ∧ b.bottom = f.bottom
        ∧ b.flag = Flag.OK)
    ∧ (∀ (g : List (Option PointField)) (rc : Nat), g.filterMap id ≠ [] →
      ∃ p, PointField.reconcile g rc = some p
        ∧ p.x = roundMean ((g.filterMap id).map (fun f => f.x))
        ∧ p.y = roundMean ((g.filterMap id).map (fun f => f.y))
        ∧ p.flag = Flag.OK)
    ∧ (∀ (f : PointField) (rc : Nat), ∃ p, PointField.reconcile [some f] rc = some p
        ∧ p.x = f.x ∧ p.y = f.y ∧ p.flag = Flag.OK) := by
  refine ⟨?_, ?_, ?_, ?_⟩
  · intro g rc hne
    cases h : g.filterMap id with
    | nil => exact absurd h hne
    | cons f rest =>
        refine ⟨{ field_name := f.field_name, name_group := f.name_group, suffix := f.suffix,
                  note := boxNote (f :: rest).length, flag := Flag.OK,
                  left := roundMean ((f :: rest).map (fun b => b.left)),
                  top := roundMean ((f :: rest).map (fun b => b.top)),
                  right := roundMean ((f :: rest).map (fun b => b.right)),
                  bottom := roundMean ((f :: rest).map (fun b => b.bottom)) },
                ?_, ?_, ?_, ?_, ?_, ?_⟩ <;>
          simp [BoxField.reconcile, h]
  · intro f rc
    refine ⟨{ field_name := f.field_name, name_group := f.name_group, suffix := f.suffix,
              note := boxNote 1, flag := Flag.OK,
              left := f.left, top := f.top, right := f.right, bottom := f.bottom },
            ?_, rfl, rfl, rfl, rfl, rfl⟩
    simp [BoxField.reconcile, roundMean_single]
  · intro g rc hne
    cases h : g.filterMap id with
    | nil => exact absurd h hne
    | cons f rest =>
        refine ⟨{ field_name := f.field_name, name_group := f.name_group, suffix := f.suffix,
                  note := pointNote (f :: rest).length, flag := Flag.OK,
                  x := roundMean ((f :: rest).map (fun p => p.x)),
                  y := roundMean ((f :: rest).map (fun p => p.y)) },
                ?_, ?_, ?_, ?_⟩ <;>
          simp [PointField.reconcile, h]
  · intro f rc
    refine ⟨{ field_name := f.field_name, name_group := f.name_group, suffix := f.suffix,
              note := pointNote 1, flag := Flag.OK, x := f.x, y := f.y },
            ?_, rfl, rfl, rfl⟩
    simp [PointField.reconcile, roundMean_single]

/-- Witness for C2: the three-box group of test_box_field.py has at least one
non-null entry, and the reconciled corners are the rounded coordinate means. -/
theorem box_point_reconcile_mean_round_witness :
    ∃ b, BoxField.reconcile
        [some { left := 0, top := 0, right := 30, bottom := 30 },
         some { left := 10, top := 10, right := 40, bottom := 40 },
         some { left := 20, top := 20, right := 50, bottom := 50 }] 3 = some b
      ∧ b.left = roundMean ((([some { left := 0, top := 0, right := 30, bottom := 30 },
            some { left := 10, top := 10, right := 40, bottom := 40 },
            some { left := 20, top := 20, right := 50, bottom := 50 }] :
              List (Option BoxField)).filterMap id).map (fun f => f.left))
      ∧ b.top = roundMean ((([some { left := 0, top := 0, right := 30, bottom := 30 },
            some { left := 10, top := 10, right := 40, bottom := 40 },
            some { left := 20, top := 20, right := 50, bottom := 50 }] :
              List (Option BoxField)).filterMap id).map (fun f => f.top))
      ∧ b.right = roundMean ((([some { left := 0, top := 0, right := 30, bottom := 30 },
            some { left := 10, top := 10, right := 40, bottom := 40 },
            some { left := 20, top := 20, right := 50, bottom := 50 }] :
              List (Option BoxField)).filterMap id).map (fun f => f.right))
      ∧ b.bottom = roundMean ((([some { left := 0, top := 0, right := 30, bottom := 30 },
            some { left := 10, top := 10, right := 40, bottom := 40 },
            some { left := 20, top := 20, right := 50, bottom := 50 }] :
              List (Option BoxField)).filterMap id).map (fun f => f.bottom))
      ∧ b.flag = Flag.OK :=
  box_point_reconcile_mean_round.1
    [some { left := 0, top := 0, right := 30, bottom := 30 },
     some { left := 10, top := 10, right := 40, bottom := 40 },
     some { left := 20, top := 20, right := 50, bottom := 50 }] 3 (by decide)

/-- C3: the reconcile contract (None exactly when every entry is None, a
single field with note and flag otherwise) is violated by the polygon
variant: a group of all None entries does return None, but a group with a
non-null entry behind a None placeholder raises instead of returning a field. -/
theorem polygon_reconcile_contract_violation :
    PolygonField.reconcile [none, none] 2 = Except.ok none
    ∧ (∃ g ∈ ([none, some { points := [⟨5, 6⟩] }] : List (Option PolygonField)), g ≠ none)
    ∧ PolygonField.reconcile [none, some { points := [⟨5, 6⟩] }] 3 = Except.error () := by
  refine ⟨rfl, ⟨some { points := [⟨5, 6⟩] }, by decide, by decide⟩, rfl⟩

/-- C8: a fuzzy threshold outside 0..100 makes validation report a fatal
configuration error, and the cli pipeline then terminates without reading the
input or reconciling (no events at all); thresholds inside the range pass
validation and the pipeline proceeds to the run. -/
theorem threshold_validation_gates_pipeline :
    ∀ (fr fs : Int) (usable : TRow → Bool) (a : RunArgs) (tbl : List TRow),
      ((fr < 0 ∨ 100 < fr ∨ fs < 0 ∨ 100 < fs) →
        (∃ e, validateThresholds fr fs = Except.error e)
        ∧ (cliMain fr fs usable a tbl).1 = []
        ∧ (∃ e, (cliMain fr fs usable a tbl).2 = Except.error e))
      ∧ ((0 ≤ fr ∧ fr ≤ 100 ∧ 0 ≤ fs ∧ fs ≤ 100) →
        validateThresholds fr fs = Except.ok ()
        ∧ cliMain fr fs usable a tbl = coreRun usable a tbl) := by
  intro fr fs usable a tbl
  constructor
  · intro h
    have herr : ∃ e, validateThresholds fr fs = Except.error e := by
      unfold validateThresholds
      by_cases h1 : fr < 0 ∨ fr > 100
      · rw [if_pos h1]; exact ⟨_, rfl⟩
      · rw [if_neg h1, if_pos (by omega)]; exact ⟨_, rfl⟩
    obtain ⟨e, he⟩ := herr
    refine ⟨⟨e, he⟩, ?_, ⟨e, ?_⟩⟩ <;> simp [cliMain, he]
  · intro h
    have hok : validateThresholds fr fs = Except.ok () := by
      unfold validateThresholds
      rw [if_neg (by omega), if_neg (by omega)]
    exact ⟨hok, by simp [cliMain, hok]⟩

/-- Witness for C8: the threshold 101 is rejected before anything runs, and
the default thresholds 90 and 50 pass. -/
theorem threshold_validation_gates_pipeline_witness :
    ((∃ e, validateThresholds 101 50 = Except.error e)
      ∧ (cliMain 101 50 (fun _ => true) c7args [c7rowA]).1 = []
      ∧ (∃ e, (cliMain 101 50 (fun _ => true) c7args [c7rowA]).2 = Except.error e))
    ∧ (validateThresholds 90 50 = Except.ok ()
      ∧ cliMain 90 50 (fun _ => true) c7args [c7rowA]
          = coreRun (fun _ => true) c7args [c7rowA]) :=
  ⟨(threshold_validation_gates_pipeline 101 50 (fun _ => true) c7args [c7rowA]).1
      (by omega),
   (threshold_validation_gates_pipeline 90 50 (fun _ => true) c7args [c7rowA]).2
      (by omega)⟩

/-- C7 counterexample: a run whose reconciliation step fails (here through the
polygon group[0] access) after the unreconciled CSV was requested fails with a
non-empty output set: the unreconciled CSV has already been written, so a
partial output file is left behind. -/
theorem run_failure_leaves_partial_output :
    (coreRun (fun _ => true) c7args [c7rowA, c7rowB]).2
        = Except.error ("reconciliation failed")
    ∧ Ev.wroteUnreconciled ("unrec.csv")
        ∈ (coreRun (fun _ => true) c7args [c7rowA, c7rowB]).1 := by
  exact ⟨rfl, by decide⟩

/-- C7 amended: whatever combination of steps fails, a failing run exits with
an error (non-zero status) and leaves behind only the outputs of the write
stages completed before the failure: possibly the unreconciled CSV (written
before reconciliation) and, when the failure comes after the reconciled CSV
was written (a summary-write failure), also the reconciled CSV; a failing run
never emits a summary file or any archive event.  The second conjunct shows
the summary-failure scenario concretely: the run fails and both the
unreconciled and reconciled CSVs are left behind, with no summary file and no
archive. -/
theorem run_failure_outputs_amended :
    (∀ (io : Ev → Bool) (usable : TRow → Bool) (a : RunArgs) (tbl : List TRow) (e : String),
      (coreRunEnv io usable a tbl).2 = Except.error e →
      ∀ ev ∈ (coreRunEnv io usable a tbl).1,
        ev = Ev.readInput
          ∨ (∃ p, a.unreconciled = some p ∧ ev = Ev.wroteUnreconciled p)
          ∨ (∃ p, a.reconciled = some p ∧ ev = Ev.wroteReconciled p))
    ∧ ((coreRunEnv c7io (fun _ => true) c7bargs [c7rowC]).2 = Except.error ("write failed")
      ∧ Ev.wroteUnreconciled ("unrec.csv") ∈ (coreRunEnv c7io (fun _ => true) c7bargs [c7rowC]).1
      ∧ Ev.wroteReconciled ("rec.csv") ∈ (coreRunEnv c7io (fun _ => true) c7bargs [c7rowC]).1
      ∧ Ev.wroteSummary ("sum.html") ∉ (coreRunEnv c7io (fun _ => true) c7bargs [c7rowC]).1
      ∧ Ev.createdZip ("sum.html") ∉ (coreRunEnv c7io (fun _ => true) c7bargs [c7rowC]).1) := by
  constructor
  · intro io usable a tbl e herr ev hev
    by_cases htbl : tbl.isEmpty
    · simp [coreRunEnv, htbl] at hev
      exact Or.inl hev
    · cases hu : tryWrite io (a.unreconciled.map Ev.wroteUnreconciled) with
      | error eu =>
          simp [coreRunEnv, htbl, hu] at hev
          exact Or.inl hev
      | ok evU =>
          have hmemU : ∀ x ∈ evU,
              ∃ p, a.unreconciled = some p ∧ x = Ev.wroteUnreconciled p := by
            intro x hx
            have := tryWrite_ok_mem hu x hx
            rcases Option.map_eq_some'.mp this with ⟨p, hp, hpe⟩
            exact ⟨p, hp, hpe.symm⟩
          cases hneeds : (a.reconciled.isSome || a.summary.isSome || a.force_reconcile) with
          | false => simp [coreRunEnv, htbl, hu, hneeds] at herr
          | true =>
              cases hrec : tableReconcile usable tbl with
              | error u =>
                  simp only [coreRunEnv, htbl, hu, hneeds, hrec] at hev
                  simp at hev
                  rcases hev with h1 | h2
                  · exact Or.inl h1
                  · exact Or.inr (Or.inl (hmemU ev h2))
              | ok r =>
                  cases hr : tryWrite io (a.reconciled.map Ev.wroteReconciled) with
                  | error er =>
                      simp only [coreRunEnv, htbl, hu, hneeds, hrec, hr] at hev
                      simp at hev
                      rcases hev with h1 | h2
                      · exact Or.inl h1
                      · exact Or.inr (Or.inl (hmemU ev h2))
                  | ok evR =>
                      have hmemR : ∀ x ∈ evR,
                          ∃ p, a.reconciled = some p ∧ x = Ev.wroteReconciled p := by
                        intro x hx
                        have := tryWrite_ok_mem hr x hx
                        rcases Option.map_eq_some'.mp this with ⟨p, hp, hpe⟩
                        exact ⟨p, hp, hpe.symm⟩
                      cases hs : tryWrite io (a.summary.map Ev.wroteSummary) with
                      | error es =>
                          simp only [coreRunEnv, htbl, hu, hneeds, hrec, hr, hs] at hev
                          simp at hev
                          rcases hev with h1 | h2 | h3
                          · exact Or.inl h1
                          · exact Or.inr (Or.inl (hmemU ev h2))
                          · exact Or.inr (Or.inr (hmemR ev h3))
                      | ok evS =>
                          simp [coreRunEnv, htbl, hu, hneeds, hrec, hr, hs] at herr
  · refine ⟨rfl, by decide, by decide, by decide, by decide⟩

/-- Witness for C7: at the concrete reconcile-failure run, the unreconciled
write event is covered by the amended description. -/
theorem run_failure_outputs_amended_witness :
    Ev.wroteUnreconciled ("unrec.csv") = Ev.readInput
    ∨ (∃ p, c7args.unreconciled = some p
        ∧ Ev.wroteUnreconciled ("unrec.csv") = Ev.wroteUnreconciled p)
    ∨ (∃ p, c7args.reconciled = some p
        ∧ Ev.wroteUnreconciled ("unrec.csv") = Ev.wroteReconciled p) :=
  run_failure_outputs_amended.1 (fun _ => true) (fun _ => true) c7args [c7rowA, c7rowB]
    ("reconciliation failed") (by decide)
    (Ev.wroteUnreconciled ("unrec.csv")) (by decide)

/-- C10 counterexample: the two run pipelines disagree at two concrete
namespaces accepted by both.  With the keep-originals archive option and the
internal force-reconcile flag set, core.run reconciles and keeps the zipped
originals while reconcile_util.run does not reconcile and deletes the
originals; with an archive target set and no output paths at all, core.run
creates no archive while reconcile_util.run creates an empty one. -/
theorem core_util_run_divergence :
    coreRun (fun _ => true) c10args [c10row]
        ≠ utilRun (fun _ => true) c10args [c10row]
    ∧ coreRun (fun _ => true) c10bargs [c10row]
        ≠ utilRun (fun _ => true) c10bargs [c10row] := by
  exact ⟨by decide, by decide⟩

/-- C10 amended: the two pipelines agree (same result pair, same file events,
under every I/O environment) for every args namespace with the keep-originals
option unset, the force-reconcile flag unset, and in which an archive target
is only set when at least one output path is set; they diverge otherwise, as
the counterexample shows on each excluded condition. -/
theorem core_util_run_agree_amended :
    ∀ (io : Ev → Bool) (usable : TRow → Bool) (a : RunArgs) (tbl : List TRow),
      a.zip_keep = none → a.force_reconcile = false →
      ((zipTarget a).isSome → zipMembers a ≠ []) →
      coreRunEnv io usable a tbl = utilRunEnv io usable a tbl := by
  intro io usable a tbl hzk hforce hmem
  have hz : coreZipEvents a = utilZipEvents a := by
    unfold coreZipEvents utilZipEvents
    cases hzt : zipTarget a with
    | none => rfl
    | some z =>
        have hm : zipMembers a ≠ [] := hmem (by simp [hzt])
        simp [hzk, hm]
  simp only [coreRunEnv, utilRunEnv, hforce, Bool.or_false, hz]

/-- Witness for C10: a concrete namespace with no archive options and the
force flag unset runs identically through both pipelines. -/
theorem core_util_run_agree_amended_witness :
    coreRunEnv (fun _ => true) (fun _ => true) { workflow_id := "ww" } [c10row]
      = utilRunEnv (fun _ => true) (fun _ => true) { workflow_id := "ww" } [c10row] :=
  core_util_run_agree_amended (fun _ => true) (fun _ => true)
    { workflow_id := "ww" } [c10row] rfl rfl (by decide)

/-! ## Lemmas about the Row suffix machinery (C5) -/

/-- Looking up the inserted key finds the inserted value. -/
theorem lookup_dictInsert_self {α : Type} (l : List (String × α)) (k : String) (v : α) :
    (dictInsert l k v).lookup k = some v := by
  induction l with
  | nil => simp [dictInsert, List.lookup]
  | cons hd t ih =>
      obtain ⟨k1, v1⟩ := hd
      by_cases hk : k1 = k
      · subst hk
        simp [dictInsert, List.lookup]
      · simp only [dictInsert, if_neg hk, List.lookup]
        have : (k == k1) = false := by
          simp [beq_iff_eq]
          exact fun h => hk h.symm
        rw [this]
        exact ih

/-- Looking up another key is unchanged by the insertion. -/
theorem lookup_dictInsert_ne {α : Type} (l : List (String × α)) (k k2 : String) (v : α)
    (h : k2 ≠ k) : (dictInsert l k v).lookup k2 = l.lookup k2 := by
  induction l with
  | nil =>
      simp only [dictInsert, List.lookup]
      have : (k2 == k) = false := by simp [beq_iff_eq, h]
      rw [this]
  | cons hd t ih =>
      obtain ⟨k1, v1⟩ := hd
      by_cases hk : k1 = k
      · subst hk
        simp only [dictInsert, if_pos rfl, List.lookup]
        have : (k2 == k1) = false := by simp [beq_iff_eq, h]
        rw [this]
      · simp only [dictInsert, if_neg hk, List.lookup]
        cases hb : (k2 == k1) with
        | true => rfl
        | false => exact ih

/-- A value of the dict after insertion is the inserted value or an old one. -/
theorem mem_values_dictInsert {α : Type} {l : List (String × α)} {k : String} {v x : α}
    (hx : x ∈ (dictInsert l k v).map Prod.snd) : x = v ∨ x ∈ l.map Prod.snd := by
  induction l with
  | nil =>
      simp [dictInsert] at hx
      exact Or.inl hx
  | cons hd t ih =>
      obtain ⟨k1, v1⟩ := hd
      by_cases hk : k1 = k
      · subst hk
        rw [dictInsert, if_pos rfl, List.map_cons, List.mem_cons] at hx
        rcases hx with h1 | h2
        · exact Or.inl h1
        · refine Or.inr ?_
          rw [List.map_cons]
          exact List.mem_cons_of_mem _ h2
      · rw [dictInsert, if_neg hk, List.map_cons, List.mem_cons] at hx
        rcases hx with h1 | h2
        · refine Or.inr ?_
          rw [List.map_cons, h1]
          exact List.mem_cons_self _ _
        · rcases ih h2 with h3 | h4
          · exact Or.inl h3
          · refine Or.inr ?_
            rw [List.map_cons]
            exact List.mem_cons_of_mem _ h4

/-- Unfolding fieldPairs over a cons cell. -/
theorem fieldPairs_cons (k1 : String) (v1 : RField) (rest : List (String × RField)) :
    fieldPairs ((k1, v1) :: rest)
      = (if v1.isTask = true then [(v1.name_group, v1.suffix)] else [])
          ++ fieldPairs rest := by
  by_cases h : v1.isTask = true <;> simp [fieldPairs, h]

/-- Membership in fieldPairs comes from a task value of the list. -/
theorem mem_fieldPairs_iff {l : List (String × RField)} {p : String × Nat} :
    p ∈ fieldPairs l
      ↔ ∃ x ∈ l.map Prod.snd, x.isTask = true ∧ p = (x.name_group, x.suffix) := by
  simp only [fieldPairs, List.mem_map, List.mem_filter]
  constructor
  · rintro ⟨x, ⟨hx, ht⟩, hp⟩
    exact ⟨x, hx, ht, hp.symm⟩
  · rintro ⟨x, hx, ht, hp⟩
    exact ⟨x, ⟨hx, ht⟩, hp.symm⟩

/-- A pair of the dict after insertion is the pair of the inserted task value
or an old pair. -/
theorem mem_fieldPairs_dictInsert {l : List (String × RField)} {k : String} {v : RField}
    {p : String × Nat} (hp : p ∈ fieldPairs (dictInsert l k v)) :
    (v.isTask = true ∧ p = (v.name_group, v.suffix)) ∨ p ∈ fieldPairs l := by
  rcases mem_fieldPairs_iff.mp hp with ⟨x, hx, ht, hpx⟩
  rcases mem_values_dictInsert hx with h1 | h2
  · subst h1
    exact Or.inl ⟨ht, hpx⟩
  · exact Or.inr (mem_fieldPairs_iff.mpr ⟨x, h2, ht, hpx⟩)

/-- Inserting a value whose pair is fresh keeps the pairs pairwise distinct. -/
theorem fieldPairs_dictInsert_nodup {l : List (String × RField)} {k : String} {v : RField}
    (h : (fieldPairs l).Nodup)
    (hv : v.isTask = true → (v.name_group, v.suffix) ∉ fieldPairs l) :
    (fieldPairs (dictInsert l k v)).Nodup := by
  induction l with
  | nil =>
      by_cases ht : v.isTask = true <;>
        simp [dictInsert, fieldPairs_cons, fieldPairs, ht]
  | cons hd t ih =>
      obtain ⟨k1, v1⟩ := hd
      rw [fieldPairs_cons] at h hv
      by_cases hk : k1 = k
      · subst hk
        rw [dictInsert, if_pos rfl, fieldPairs_cons]
        have htail : (fieldPairs t).Nodup := (List.Nodup.of_append_right h)
        by_cases ht : v.isTask = true
        · have hfresh : (v.name_group, v.suffix) ∉ fieldPairs t := by
            intro hmem
            exact hv ht (List.mem_append_right _ hmem)
          simp [ht, htail, hfresh]
        · simp [ht, htail]
      · rw [dictInsert, if_neg hk, fieldPairs_cons]
        have htail : (fieldPairs t).Nodup := (List.Nodup.of_append_right h)
        have hvt : v.isTask = true → (v.name_group, v.suffix) ∉ fieldPairs t := by
          intro ht hmem
          exact hv ht (List.mem_append_right _ hmem)
        have hrec : (fieldPairs (dictInsert t k v)).Nodup := ih htail hvt
        by_cases h1 : v1.isTask = true
        · have hhead : (v1.name_group, v1.suffix) ∉ fieldPairs (dictInsert t k v) := by
            intro hmem
            rcases mem_fieldPairs_dictInsert hmem with ⟨ht, hpv⟩ | hold
            · exact hv ht (by
                rw [hpv]
                exact List.mem_append_left _ (by simp [h1]))
            · have : ¬ (v1.name_group, v1.suffix) ∈ fieldPairs t := by
                have := h
                simp [h1, List.nodup_cons] at this
                exact this.1
              exact this hold
          simp [h1, hhead, hrec]
        · simp [h1, hrec]

/-- The suffix counter after one add call. -/
theorem suffixCount_add (r : Row) (f : RField) (g : String) :
    suffixCount (r.add f) g
      = if f.isTask = true ∧ f.name_group = g
        then suffixCount r g + 1 else suffixCount r g := by
  by_cases hf : f.isTask = true
  · by_cases hg : f.name_group = g
    · subst hg
      simp [Row.add, hf, suffixCount, lookup_dictInsert_self]
    · have hg2 : g ≠ f.name_group := fun h => hg h.symm
      simp [Row.add, hf, hg, suffixCount, lookup_dictInsert_ne _ _ _ _ hg2]
  · simp [Row.add, hf, suffixCount]

/-- Unfolding countTask over a cons cell. -/
theorem countTask_cons (g : String) (f : RField) (t : List RField) :
    countTask g (f :: t)
      = (if f.isTask = true ∧ f.name_group = g then 1 else 0) + countTask g t := by
  by_cases h1 : f.isTask = true <;> by_cases h2 : f.name_group = g <;>
    simp [countTask, h1, h2, Nat.add_comm]

/-- The suffix counter of a built row counts the task occurrences of the
name group among the added fields. -/
theorem suffixCount_addAll (fs : List RField) (r : Row) (g : String) :
    suffixCount (r.addAll fs) g = suffixCount r g + countTask g fs := by
  induction fs generalizing r with
  | nil => simp [Row.addAll, countTask]
  | cons f t ih =>
      have hstep : Row.addAll r (f :: t) = Row.addAll (r.add f) t := rfl
      rw [hstep, ih, suffixCount_add, countTask_cons]
      by_cases hc : f.isTask = true ∧ f.name_group = g
      · simp [hc]
        omega
      · simp [hc]

/-- The empty Row has all counters at zero. -/
theorem suffixCount_empty (g : String) : suffixCount {} g = 0 := rfl

/-- Counter of a from-scratch row. -/
theorem suffixCount_buildRow (fs : List RField) (g : String) :
    suffixCount (buildRow fs) g = countTask g fs := by
  have := suffixCount_addAll fs {} g
  simpa [buildRow, suffixCount_empty] using this

/-- The stamp a field receives when added after a list of other fields. -/
theorem stampField_buildRow (fs : List RField) (f : RField) :
    stampField (buildRow fs) f
      = if f.isTask = true
        then { f with suffix := countTask f.name_group fs + 1 } else f := by
  by_cases hf : f.isTask = true <;> simp [stampField, hf, suffixCount_buildRow]

/-- The value stored for the last added field is its stamped version. -/
theorem buildRow_append_lookup (fs : List RField) (f : RField) :
    (buildRow (fs ++ [f])).fields.lookup f.field_name
      = some (stampField (buildRow fs) f) := by
  have h1 : buildRow (fs ++ [f]) = (buildRow fs).add f := by
    simp [buildRow, Row.addAll, List.foldl_append]
  rw [h1]
  by_cases hf : f.isTask = true <;>
    simp [Row.add, hf, stampField, lookup_dictInsert_self]

/-- One add call preserves the Row invariant. -/
theorem rowInv_add {r : Row} (h : RowInv r) (f : RField) : RowInv (r.add f) := by
  obtain ⟨hb, hn⟩ := h
  have hmono : ∀ g, suffixCount r g ≤ suffixCount (r.add f) g := by
    intro g
    rw [suffixCount_add]
    by_cases hc : f.isTask = true ∧ f.name_group = g <;> simp [hc]
  by_cases hf : f.isTask = true
  · constructor
    · intro x hx htx
      have hx2 : x = stampField r f ∨ x ∈ r.fields.map Prod.snd := by
        have : (r.add f).fields = dictInsert r.fields f.field_name (stampField r f) := by
          simp [Row.add, hf]
        rw [this] at hx
        exact mem_values_dictInsert hx
      rcases hx2 with h1 | h2
      · subst h1
        have hng : (stampField r f).name_group = f.name_group := by simp [stampField, hf]
        have hsf : (stampField r f).suffix = suffixCount r f.name_group + 1 := by
          simp [stampField, hf]
        rw [hng, hsf]
        constructor
        · omega
        · rw [suffixCount_add]
          simp [hf]
      · have := hb x h2 htx
        exact ⟨this.1, le_trans this.2 (hmono _)⟩
    · have hfields : (r.add f).fields = dictInsert r.fields f.field_name (stampField r f) := by
        simp [Row.add, hf]
      rw [hfields]
      apply fieldPairs_dictInsert_nodup hn
      intro ht hmem
      rcases mem_fieldPairs_iff.mp hmem with ⟨x, hx, htx, hpx⟩
      have hbx := hb x hx htx
      have hng : (stampField r f).name_group = f.name_group := by simp [stampField, hf]
      have hsf : (stampField r f).suffix = suffixCount r f.name_group + 1 := by
        simp [stampField, hf]
      rw [hng, hsf] at hpx
      have hx1 : x.name_group = f.name_group := by
        have := congrArg Prod.fst hpx
        simpa using this.symm
      have hx2 : x.suffix = suffixCount r f.name_group + 1 := by
        have := congrArg Prod.snd hpx
        simpa using this.symm
      rw [hx1] at hbx
      omega
  · constructor
    · intro x hx htx
      have hfields : (r.add f).fields = dictInsert r.fields f.field_name f := by
        simp [Row.add, hf]
      rw [hfields] at hx
      rcases mem_values_dictInsert hx with h1 | h2
      · subst h1
        exact absurd htx hf
      · have hsuf : suffixCount (r.add f) x.name_group = suffixCount r x.name_group := by
          rw [suffixCount_add]
          simp [hf]
        rw [hsuf]
        exact hb x h2 htx
    · have hfields : (r.add f).fields = dictInsert r.fields f.field_name f := by
        simp [Row.add, hf]
      rw [hfields]
      apply fieldPairs_dictInsert_nodup hn
      intro ht
      exact absurd ht hf

/-- Adding any list of fields preserves the Row invariant. -/
theorem rowInv_addAll (fs : List RField) (r : Row) (h : RowInv r) :
    RowInv (r.addAll fs) := by
  induction fs generalizing r with
  | nil => exact h
  | cons f t ih =>
      have hstep : Row.addAll r (f :: t) = Row.addAll (r.add f) t := rfl
      rw [hstep]
      exact ih _ (rowInv_add h f)

/-- Every row built by add calls satisfies the invariant. -/
theorem rowInv_buildRow (fs : List RField) : RowInv (buildRow fs) := by
  apply rowInv_addAll
  constructor
  · intro x hx
    simp at hx
  · simp [fieldPairs]

/-- C5: in any Row built by a sequence of add calls, a task field added after
a list of previous fields is stored stamped with suffix equal to one plus the
number of earlier task occurrences of its name group (so numbering starts at
1 and increments by one per occurrence), a non-task field is stored with its
suffix untouched, and the (name_group, suffix) pairs of the task fields
present in the row are pairwise distinct. -/
theorem row_add_suffix_spec :
    (∀ (fs : List RField) (f : RField), f.isTask = true →
        (buildRow (fs ++ [f])).fields.lookup f.field_name
          = some { f with suffix := countTask f.name_group fs + 1 })
    ∧ (∀ (fs : List RField) (f : RField), f.isTask = false →
        (buildRow (fs ++ [f])).fields.lookup f.field_name = some f)
    ∧ (∀ fs : List RField, (taskPairs (buildRow fs)).Nodup) := by
  refine ⟨?_, ?_, ?_⟩
  · intro fs f hf
    rw [buildRow_append_lookup, stampField_buildRow]
    simp [hf]
  · intro fs f hf
    rw [buildRow_append_lookup, stampField_buildRow]
    simp [hf]
  · intro fs
    exact (rowInv_buildRow fs).2

/-- Witness for C5: the second box task field of a row receives suffix 2. -/
theorem row_add_suffix_spec_witness :
    (buildRow ([{ field_name := "b1", name_group := "box", suffix := 0, isTask := true }]
        ++ [{ field_name := "b2", name_group := "box", suffix := 0, isTask := true }])).fields.lookup
          ("b2")
      = some { field_name := "b2", name_group := "box",
               suffix := countTask ("box")
                 [{ field_name := "b1", name_group := "box", suffix := 0, isTask := true }] + 1,
               isTask := true } :=
  row_add_suffix_spec.1
    [{ field_name := "b1", name_group := "box", suffix := 0, isTask := true }]
    { field_name := "b2", name_group := "box", suffix := 0, isTask := true } (by decide)

/-! ## Lemmas about grouping order and group skipping (C4, C6) -/

/-- Filtering twice with the same test is the same as filtering once. -/
theorem filter_idem {α : Type} (p : α → Bool) (l : List α) :
    (l.filter p).filter p = l.filter p := by
  induction l with
  | nil => rfl
  | cons x t ih => cases hp : p x <;> simp [List.filter_cons, hp, ih]

/-- filter over a cons cell whose head passes the test. -/
theorem filter_cons_pos {α : Type} (p : α → Bool) (a : α) (l : List α) (h : p a = true) :
    (a :: l).filter p = a :: l.filter p := by
  simp [List.filter_cons, h]

/-- filter over a cons cell whose head fails the test. -/
theorem filter_cons_neg {α : Type} (p : α → Bool) (a : α) (l : List α) (h : p a = false) :
    (a :: l).filter p = l.filter p := by
  simp [List.filter_cons, h]

/-- firstSeenAux only looks at membership of the seen list. -/
theorem firstSeenAux_congr (l : List String) :
    ∀ seen1 seen2, (∀ x, x ∈ seen1 ↔ x ∈ seen2) →
      firstSeenAux seen1 l = firstSeenAux seen2 l := by
  induction l with
  | nil => intro s1 s2 _; rfl
  | cons x rest ih =>
      intro s1 s2 h
      by_cases hx : x ∈ s2
      · simp only [firstSeenAux]
        rw [if_pos ((h x).mpr hx), if_pos hx]
        exact ih s1 s2 h
      · simp only [firstSeenAux]
        rw [if_neg (fun hm => hx ((h x).mp hm)), if_neg hx]
        congr 1
        apply ih
        intro y
        simp [List.mem_cons, h y]

/-- Marking a key as seen up front exactly filters it out of the result. -/
theorem firstSeenAux_cons_seen (k : String) (l : List String) :
    ∀ seen, firstSeenAux (k :: seen) l
      = (firstSeenAux seen l).filter (fun x => x != k) := by
  induction l with
  | nil => intro seen; rfl
  | cons x rest ih =>
      intro seen
      by_cases hxk : x = k
      · subst hxk
        have h1 : x ∈ x :: seen := List.mem_cons_self _ _
        have hxx : (x != x) = false := by simp
        by_cases hc : x ∈ seen
        · simp only [firstSeenAux]
          rw [if_pos h1, if_pos hc]
          exact ih seen
        · simp only [firstSeenAux]
          rw [if_pos h1, if_neg hc,
            filter_cons_neg (fun y => y != x) x (firstSeenAux (x :: seen) rest) hxx,
            ih seen, filter_idem]
      · have h2 : ∀ s : List String, x ∈ k :: s ↔ x ∈ s := by
          intro s
          simp [List.mem_cons, hxk]
        have hxkb : ((x != k) = true) := by simp [hxk]
        by_cases hc : x ∈ seen
        · simp only [firstSeenAux]
          rw [if_pos ((h2 seen).mpr hc), if_pos hc]
          exact ih seen
        · simp only [firstSeenAux]
          rw [if_neg (fun hm => hc ((h2 seen).mp hm)), if_neg hc,
            filter_cons_pos (fun y => y != k) x (firstSeenAux (x :: seen) rest) hxkb]
          congr 1
          have hswap : firstSeenAux (x :: k :: seen) rest
              = firstSeenAux (k :: x :: seen) rest := by
            apply firstSeenAux_congr
            intro y
            simp [List.mem_cons]
            constructor
            · rintro (h1 | h1 | h1)
              · exact Or.inr (Or.inl h1)
              · exact Or.inl h1
              · exact Or.inr (Or.inr h1)
            · rintro (h1 | h1 | h1)
              · exact Or.inr (Or.inl h1)
              · exact Or.inl h1
              · exact Or.inr (Or.inr h1)
          rw [hswap, ih (x :: seen)]

/-- firstSeen commutes with removing all occurrences of one key. -/
theorem firstSeenAux_filter_ne (k : String) (l : List String) :
    ∀ seen, firstSeenAux seen (l.filter (fun x => x != k))
      = (firstSeenAux seen l).filter (fun x => x != k) := by
  induction l with
  | nil => intro seen; rfl
  | cons x rest ih =>
      intro seen
      by_cases hxk : x = k
      · subst hxk
        have hxx : (x != x) = false := by simp
        rw [filter_cons_neg (fun y => y != x) x rest hxx, ih seen]
        by_cases hc : x ∈ seen
        · simp only [firstSeenAux]
          rw [if_pos hc]
        · simp only [firstSeenAux]
          rw [if_neg hc,
            filter_cons_neg (fun y => y != x) x (firstSeenAux (x :: seen) rest) hxx,
            firstSeenAux_cons_seen x rest seen, filter_idem]
      · have hxkb : ((x != k) = true) := by simp [hxk]
        rw [filter_cons_pos (fun y => y != k) x rest hxkb]
        by_cases hc : x ∈ seen
        · simp only [firstSeenAux]
          rw [if_pos hc, if_pos hc]
          exact ih seen
        · simp only [firstSeenAux]
          rw [if_neg hc, if_neg hc,
            filter_cons_pos (fun y => y != k) x (firstSeenAux (x :: seen) rest) hxkb]
          congr 1
          exact ih (x :: seen)

/-- Mapping keys commutes with filtering rows on their key. -/
theorem map_key_filter_ne (rows : List TRow) (k : String) :
    (rows.filter (fun r => r.key != k)).map (fun r => r.key)
      = (rows.map (fun r => r.key)).filter (fun x => x != k) := by
  induction rows with
  | nil => rfl
  | cons r t ih =>
      cases hk : (r.key != k) <;>
        simp [List.filter_cons, List.map_cons, hk, ih]

/-- Dropping the rows of one key leaves every other key group untouched. -/
theorem filter_ne_filter_key (rows : List TRow) (k j : String) (h : j ≠ k) :
    (rows.filter (fun r => r.key != k)).filter (fun r => r.key == j)
      = rows.filter (fun r => r.key == j) := by
  induction rows with
  | nil => rfl
  | cons r t ih =>
      by_cases hj : r.key = j
      · have h1 : (r.key == j) = true := by simp [hj]
        have h2 : (r.key != k) = true := by
          simp [hj]
          exact h
        simp [List.filter_cons, h1, h2, ih]
      · have h1 : (r.key == j) = false := by simp [hj]
        cases h2 : (r.key != k) <;> simp [List.filter_cons, h1, h2, ih]

/-- reconcileKeysG only reads the rows through their per-key groups. -/
theorem reconcileKeysG_rows_congr
    (colRec : List (Option PolygonField) → Nat → Except Unit (Option PolygonField))
    (usable : TRow → Bool) :
    ∀ (ks : List String) (rows rows2 : List TRow),
      (∀ j ∈ ks, rows.filter (fun r => r.key == j) = rows2.filter (fun r => r.key == j)) →
      reconcileKeysG colRec usable rows ks = reconcileKeysG colRec usable rows2 ks := by
  intro ks
  induction ks with
  | nil => intro rows rows2 _; rfl
  | cons k t ih =>
      intro rows rows2 h
      have hk := h k (List.mem_cons_self _ _)
      have ht : ∀ j ∈ t, rows.filter (fun r => r.key == j)
          = rows2.filter (fun r => r.key == j) :=
        fun j hj => h j (List.mem_cons_of_mem _ hj)
      simp only [reconcileKeysG]
      rw [hk, ih rows rows2 ht]

/-- A key whose group has no usable rows can be dropped from the key list. -/
theorem reconcileKeysG_skip_filter
    (colRec : List (Option PolygonField) → Nat → Except Unit (Option PolygonField))
    (usable : TRow → Bool) (rows : List TRow) (k : String)
    (hk : (rows.filter (fun r => r.key == k)).filter usable = []) :
    ∀ ks, reconcileKeysG colRec usable rows ks
      = reconcileKeysG colRec usable rows (ks.filter (fun x => x != k)) := by
  intro ks
  induction ks with
  | nil => rfl
  | cons j t ih =>
      by_cases hj : j = k
      · subst hj
        have hempty : ((rows.filter (fun r => r.key == j)).filter usable).isEmpty = true := by
          rw [hk]
          rfl
        have hjj : (j != j) = false := by simp
        rw [List.filter_cons]
        simp only [hjj, Bool.false_eq_true, ite_false]
        simp only [reconcileKeysG, hempty, if_true]
        exact ih
      · have hjb : (j != k) = true := by simp [hj]
        rw [List.filter_cons]
        simp only [hjb, if_true]
        simp only [reconcileKeysG]
        rw [ih]

/-- When no row at all is usable, every group is skipped and the reconciled
table is empty without an error. -/
theorem reconcileKeysG_all_unusable
    (colRec : List (Option PolygonField) → Nat → Except Unit (Option PolygonField))
    (usable : TRow → Bool) (rows : List TRow)
    (h : rows.filter usable = []) :
    ∀ ks, reconcileKeysG colRec usable rows ks = Except.ok [] := by
  intro ks
  induction ks with
  | nil => rfl
  | cons k t ih =>
      have hu : (rows.filter (fun r => r.key == k)).filter usable = [] := by
        rw [List.eq_nil_iff_forall_not_mem]
        intro x hx
        rw [List.mem_filter] at hx
        obtain ⟨hx1, hx2⟩ := hx
        rw [List.mem_filter] at hx1
        have hmem : x ∈ rows.filter usable := List.mem_filter.mpr ⟨hx1.1, hx2⟩
        rw [h] at hmem
        exact absurd hmem (List.not_mem_nil x)
      have hempty : ((rows.filter (fun r => r.key == k)).filter usable).isEmpty = true := by
        rw [hu]
        rfl
      simp only [reconcileKeysG, hempty, if_true]
      exact ih

/-- The keys of a successfully reconciled table are the walked keys whose
groups have a usable row. -/
theorem reconcileKeysG_map_fst
    (colRec : List (Option PolygonField) → Nat → Except Unit (Option PolygonField))
    (usable : TRow → Bool) (rows : List TRow) :
    ∀ (ks : List String) (l : RecTable),
      reconcileKeysG colRec usable rows ks = Except.ok l →
      l.map Prod.fst
        = ks.filter
            (fun k => !((rows.filter (fun r => r.key == k)).filter usable).isEmpty) := by
  intro ks
  induction ks with
  | nil =>
      intro l h
      simp only [reconcileKeysG] at h
      cases h
      rfl
  | cons k t ih =>
      intro l h
      simp only [reconcileKeysG] at h
      cases hempty : ((rows.filter (fun r => r.key == k)).filter usable).isEmpty with
      | true =>
          rw [hempty] at h
          simp only [if_true] at h
          rw [List.filter_cons]
          simp only [hempty, Bool.not_true, Bool.false_eq_true, ite_false]
          exact ih l h
      | false =>
          rw [hempty] at h
          simp only [Bool.false_eq_true, ite_false] at h
          cases hcols : reconcileColsG colRec
              ((rows.filter (fun r => r.key == k)).filter usable)
              (groupColNames ((rows.filter (fun r => r.key == k)).filter usable)) with
          | error e => rw [hcols] at h; cases h
          | ok cells =>
              rw [hcols] at h
              cases hrec : reconcileKeysG colRec usable rows t with
              | error e => rw [hrec] at h; cases h
              | ok rest =>
                  rw [hrec] at h
                  cases h
                  rw [List.filter_cons]
                  simp only [hempty, Bool.not_false, if_true]
                  rw [List.map_cons, ih rest hrec]

/-- C4: reading an empty unreconciled table makes both run pipelines fail
fatally with a message naming the workflow identifier before any output is
written; in a non-empty table a group with no usable rows is skipped exactly
as if its rows were absent (no error arises from it), and a run in which
every group is skipped still succeeds. -/
theorem empty_input_fatal_empty_groups_skipped :
    (∀ (usable : TRow → Bool) (a : RunArgs),
        coreRun usable a []
          = ([Ev.readInput],
             Except.error (("Workflow ") ++ a.workflow_id ++ (" has no data.")))
        ∧ utilRun usable a []
          = ([Ev.readInput],
             Except.error (("Workflow ") ++ a.workflow_id ++ (" has no data."))))
    ∧ (∀ (usable : TRow → Bool) (rows : List TRow) (k : String),
        (rows.filter (fun r => r.key == k)).filter usable = [] →
        tableReconcile usable rows
          = tableReconcile usable (rows.filter (fun r => r.key != k)))
    ∧ (∀ (usable : TRow → Bool) (a : RunArgs) (rows : List TRow),
        rows ≠ [] → rows.filter usable = [] →
        ∃ v, (coreRun usable a rows).2 = Except.ok v) := by
  refine ⟨?_, ?_, ?_⟩
  · intro usable a
    exact ⟨rfl, rfl⟩
  · intro usable rows k hk
    unfold tableReconcile tableReconcileG
    have h1 : firstSeen ((rows.filter (fun r => r.key != k)).map (fun r => r.key))
        = (firstSeen (rows.map (fun r => r.key))).filter (fun x => x != k) := by
      unfold firstSeen
      rw [map_key_filter_ne]
      exact firstSeenAux_filter_ne k _ []
    rw [h1]
    have h2 : reconcileKeysG PolygonField.reconcile usable
          (rows.filter (fun r => r.key != k))
          ((firstSeen (rows.map (fun r => r.key))).filter (fun x => x != k))
        = reconcileKeysG PolygonField.reconcile usable rows
          ((firstSeen (rows.map (fun r => r.key))).filter (fun x => x != k)) := by
      apply reconcileKeysG_rows_congr
      intro j hj
      rw [List.mem_filter] at hj
      have hjk : j ≠ k := by
        have := hj.2
        simpa using this
      exact filter_ne_filter_key rows k j hjk
    rw [h2]
    exact reconcileKeysG_skip_filter PolygonField.reconcile usable rows k hk _
  · intro usable a rows hne hall
    have hrec : tableReconcile usable rows = Except.ok [] := by
      unfold tableReconcile tableReconcileG
      exact reconcileKeysG_all_unusable _ usable rows hall _
    have hne2 : rows.isEmpty = false := by
      cases rows with
      | nil => exact absurd rfl hne
      | cons r t => rfl
    cases hneed : (a.reconciled.isSome || a.summary.isSome || a.force_reconcile) with
    | true =>
        refine ⟨(rows, some []), ?_⟩
        simp [coreRun, coreRunEnv, tryWrite_true, hne2, hneed, hrec]
    | false =>
        refine ⟨(rows, none), ?_⟩
        simp [coreRun, coreRunEnv, tryWrite_true, hne2, hneed]

/-- Witness for C4: a group whose rows are all filtered out is dropped from a
concrete two-group table without an error. -/
theorem empty_input_fatal_empty_groups_skipped_witness :
    tableReconcile c4usable [c4rowGood, c4rowBad]
      = tableReconcile c4usable
          (([c4rowGood, c4rowBad]).filter (fun r => r.key != ("bad"))) :=
  empty_input_fatal_empty_groups_skipped.2.1 c4usable [c4rowGood, c4rowBad]
    ("bad") (by decide)

/-- Two lists related by a permutation are empty together. -/
theorem perm_isEmpty_eq {α : Type} {l1 l2 : List α} (h : l1.Perm l2) :
    l1.isEmpty = l2.isEmpty := by
  cases l1 with
  | nil =>
      cases l2 with
      | nil => rfl
      | cons b t =>
          have := h.length_eq
          simp at this
  | cons a s =>
      cases l2 with
      | nil =>
          have := h.length_eq
          simp at this
      | cons b t => rfl

/-- C6: a successfully reconciled table lists its rows in the first-seen
order of the usable group keys of the input, and any permutation of the input
rows that leaves the first-seen key order unchanged (in particular any
shuffle within groups) yields a reconciled table with the same row order. -/
theorem reconciled_rows_first_seen_order :
    ∀ (colRec : List (Option PolygonField) → Nat → Except Unit (Option PolygonField))
      (usable : TRow → Bool) (rows rows2 : List TRow) (l l2 : RecTable),
      rows.Perm rows2 →
      firstSeen (rows.map (fun r => r.key)) = firstSeen (rows2.map (fun r => r.key)) →
      tableReconcileG colRec usable rows = Except.ok l →
      tableReconcileG colRec usable rows2 = Except.ok l2 →
      l.map Prod.fst
          = (firstSeen (rows.map (fun r => r.key))).filter
              (fun k => !((rows.filter (fun r => r.key == k)).filter usable).isEmpty)
        ∧ l2.map Prod.fst = l.map Prod.fst := by
  intro colRec usable rows rows2 l l2 hperm hfs h1 h2
  unfold tableReconcileG at h1 h2
  have e1 := reconcileKeysG_map_fst colRec usable rows _ l h1
  have e2 := reconcileKeysG_map_fst colRec usable rows2 _ l2 h2
  refine ⟨e1, ?_⟩
  rw [e1, e2, ← hfs]
  apply List.filter_congr
  intro k _
  have hp : ((rows2.filter (fun r => r.key == k)).filter usable).Perm
      ((rows.filter (fun r => r.key == k)).filter usable) :=
    (hperm.symm.filter _).filter _
  rw [perm_isEmpty_eq hp]

/-- Witness for C6: a three-row table and a shuffle of it that keeps the
first-seen key order reconcile to rows with the same key order. -/
theorem reconciled_rows_first_seen_order_witness :
    (([("a", [("poly", ({ note := polygonNote 2 2, points := [⟨1, 1⟩] } : PolygonField))]),
       ("b", [("poly", ({ note := polygonNote 1 1, points := [⟨2, 2⟩] } : PolygonField))])] :
         RecTable).map Prod.fst
        = (firstSeen (([c6rowA, c6rowB, c6rowA2]).map (fun r => r.key))).filter
            (fun k =>
              !((([c6rowA, c6rowB, c6rowA2]).filter (fun r => r.key == k)).filter
                  (fun _ => true)).isEmpty))
    ∧ (([("a", [("poly", ({ note := polygonNote 2 2, points := [⟨3, 3⟩] } : PolygonField))]),
        ("b", [("poly", ({ note := polygonNote 1 1, points := [⟨2, 2⟩] } : PolygonField))])] :
          RecTable).map Prod.fst
        = ([("a", [("poly", ({ note := polygonNote 2 2, points := [⟨1, 1⟩] } : PolygonField))]),
           ("b", [("poly", ({ note := polygonNote 1 1, points := [⟨2, 2⟩] } : PolygonField))])] :
            RecTable).map Prod.fst) :=
  reconciled_rows_first_seen_order PolygonField.reconcile (fun _ => true)
    [c6rowA, c6rowB, c6rowA2] [c6rowA2, c6rowB, c6rowA]
    [("a", [("poly", { note := polygonNote 2 2, points := [⟨1, 1⟩] })]),
     ("b", [("poly", { note := polygonNote 1 1, points := [⟨2, 2⟩] })])]
    [("a", [("poly", { note := polygonNote 2 2, points := [⟨3, 3⟩] })]),
     ("b", [("poly", { note := polygonNote 1 1, points := [⟨2, 2⟩] })])]
    (by decide) (by decide) (by decide) (by decide)

end LabelRec
